import Mathlib

/-!
Verification of the tool-invocation orchestration layer of the
youtube-summarizer repository.

The development shallowly embeds, from the Python sources:
  * the JSON values produced by `json.loads` (model `Json`, decoder `jloads`),
  * the tool-call span scanner of `parse_tool_calls`
    (src/backend/main.py and src/backend/app/worker.py),
  * the residual-span stripper `re.sub` + `.strip()` of the agent loop,
  * the conversation trimming of
    src/archive/conversation_manager.py `ConversationContext.add_message`,
  * the Celery job bridge of src/backend/youtube_mcp_server.py
    (`_get_transcript_from_queue`, `get_video_transcript`, `check_job_status`)
    and the retry loop of src/backend/worker.py `fetch_transcript_task`.
-/

/-- JSON values as produced by Python `json.loads`.  Numbers are kept as their
source lexeme (the claims under verification never inspect numeric values);
object member lists keep source order, with lookup taking the last binding,
matching Python dict construction. -/
inductive Json where
  | null : Json
  | bool (b : Bool) : Json
  | num (lexeme : String) : Json
  | str (s : String) : Json
  | arr (elems : List Json) : Json
  | obj (members : List (String × Json)) : Json

/-- JSON insignificant whitespace (RFC 8259, as accepted by Python json):
space, tab, line feed, carriage return. -/
def jsonWs (c : Char) : Bool :=
  c.toNat = 32 || c.toNat = 9 || c.toNat = 10 || c.toNat = 13

/-- Drop leading JSON whitespace. -/
def skipWs (l : List Char) : List Char :=
  match l with
  | c :: cs => if jsonWs c then skipWs cs else l
  | [] => []

/-- Value of a hexadecimal digit (both cases accepted). -/
def hexDigitVal (c : Char) : Option Nat :=
  let n := c.toNat
  if 48 ≤ n && n ≤ 57 then some (n - 48)
  else if 97 ≤ n && n ≤ 102 then some (n - 87)
  else if 65 ≤ n && n ≤ 70 then some (n - 55)
  else none

/-- Value of a four-hex-digit escape. -/
def hexQuad (a b c d : Char) : Option Nat :=
  match hexDigitVal a, hexDigitVal b with
  | some x, some y =>
    match hexDigitVal c, hexDigitVal d with
    | some z, some w => some (x * 4096 + y * 256 + z * 16 + w)
    | _, _ => none
  | _, _ => none

/-- Body of a JSON string after the opening quote, strict mode: raw control
characters are rejected; `\uXXXX` escapes are decoded, surrogate pairs
combined (lone surrogates, which Python tolerates, are rejected — no claim
depends on them).  Fueled for structural termination. -/
def parseStrBody (fuel : Nat) (acc : List Char) (s : List Char) :
    Option (String × List Char) :=
  match fuel, s with
  | 0, _ => none
  | _, [] => none
  | f + 1, c :: cs =>
    if c = '"' then some (⟨acc.reverse⟩, cs)
    else if c = '\\' then
      match cs with
      | [] => none
      | e :: cs2 =>
        if e = '"' then parseStrBody f ('"' :: acc) cs2
        else if e = '\\' then parseStrBody f ('\\' :: acc) cs2
        else if e = '/' then parseStrBody f ('/' :: acc) cs2
        else if e = 'b' then parseStrBody f (Char.ofNat 8 :: acc) cs2
        else if e = 'f' then parseStrBody f (Char.ofNat 12 :: acc) cs2
        else if e = 'n' then parseStrBody f ('\n' :: acc) cs2
        else if e = 'r' then parseStrBody f ('\r' :: acc) cs2
        else if e = 't' then parseStrBody f ('\t' :: acc) cs2
        else if e = 'u' then
          match cs2 with
          | h1 :: h2 :: h3 :: h4 :: cs3 =>
            match hexQuad h1 h2 h3 h4 with
            | none => none
            | some n =>
              if 0xD800 ≤ n && n ≤ 0xDBFF then
                match cs3 with
                | '\\' :: 'u' :: g1 :: g2 :: g3 :: g4 :: cs4 =>
                  match hexQuad g1 g2 g3 g4 with
                  | some m =>
                    if 0xDC00 ≤ m && m ≤ 0xDFFF then
                      parseStrBody f
                        (Char.ofNat ((n - 0xD800) * 0x400 + (m - 0xDC00)
                          + 0x10000) :: acc) cs4
                    else none
                  | none => none
                | _ => none
              else if 0xDC00 ≤ n && n ≤ 0xDFFF then none
              else parseStrBody f (Char.ofNat n :: acc) cs3
          | _ => none
        else none
    else if c.toNat < 0x20 then none
    else parseStrBody f (c :: acc) cs

/-- Decimal digit test. -/
def isDig (c : Char) : Bool := 48 ≤ c.toNat && c.toNat ≤ 57

/-- Accumulator loop behind `takeDigits`. -/
def digitSpan (acc : List Char) : List Char → List Char × List Char
  | [] => (acc.reverse, [])
  | c :: cs =>
    if isDig c then digitSpan (c :: acc) cs else (acc.reverse, c :: cs)

/-- Split off a maximal run of decimal digits. -/
def takeDigits (l : List Char) : List Char × List Char :=
  digitSpan [] l

/-- JSON number grammar: `-? (0 | [1-9][0-9]*) frac? exp?`; returns the
lexeme and the rest of the input. -/
def parseNum (s : List Char) : Option (List Char × List Char) :=
  let (sign, s1) := match s with
    | '-' :: r => ([('-' : Char)], r)
    | r => ([], r)
  match s1 with
  | [] => none
  | c :: cs =>
    if c = '0' then some (sign ++ [c], cs)
    else if isDig c then
      let (d, r) := takeDigits cs
      some (sign ++ c :: d, r)
    else none

/-- Optional fraction part `.digits+`. -/
def parseFrac (s : List Char) : Option (List Char × List Char) :=
  match s with
  | '.' :: cs =>
    match takeDigits cs with
    | ([], _) => none
    | (d, r) => some ('.' :: d, r)
  | _ => some ([], s)

/-- Optional exponent part `[eE][+-]?digits+`. -/
def parseExp (s : List Char) : Option (List Char × List Char) :=
  match s with
  | c :: cs =>
    if c = 'e' || c = 'E' then
      let (sg, cs2) := match cs with
        | '+' :: r => ([('+' : Char)], r)
        | '-' :: r => ([('-' : Char)], r)
        | r => ([], r)
      match takeDigits cs2 with
      | ([], _) => none
      | (d, r) => some (c :: (sg ++ d), r)
    else some ([], c :: cs)
  | [] => some ([], [])

/-- Full JSON number: integer part, optional fraction, optional exponent. -/
def parseNumber (s : List Char) : Option (Json × List Char) :=
  match parseNum s with
  | none => none
  | some (i, r1) =>
    match parseFrac r1 with
    | none => none
    | some (fr, r2) =>
      match parseExp r2 with
      | none => none
      | some (ex, r3) => some (.num ⟨i ++ fr ++ ex⟩, r3)

mutual

/-- Parse one JSON value (leading whitespace allowed), fueled. -/
def parseVal (fuel : Nat) (s : List Char) : Option (Json × List Char) :=
  match fuel with
  | 0 => none
  | f + 1 =>
    match skipWs s with
    | 'n' :: 'u' :: 'l' :: 'l' :: r => some (.null, r)
    | 't' :: 'r' :: 'u' :: 'e' :: r => some (.bool true, r)
    | 'f' :: 'a' :: 'l' :: 's' :: 'e' :: r => some (.bool false, r)
    | '"' :: r =>
      match parseStrBody (r.length + 1) [] r with
      | some (str, rest) => some (.str str, rest)
      | none => none
    | '[' :: r =>
      match skipWs r with
      | ']' :: rest => some (.arr [], rest)
      | r2 => parseArrRest f [] r2
    | '{' :: r =>
      match skipWs r with
      | '}' :: rest => some (.obj [], rest)
      | r2 => parseObjRest f [] r2
    | r => parseNumber r

/-- Parse the elements of a non-empty array, starting at an element. -/
def parseArrRest (fuel : Nat) (acc : List Json) (s : List Char) :
    Option (Json × List Char) :=
  match fuel with
  | 0 => none
  | f + 1 =>
    match parseVal f s with
    | none => none
    | some (v, r) =>
      match skipWs r with
      | ',' :: r2 => parseArrRest f (v :: acc) r2
      | ']' :: r2 => some (.arr (v :: acc).reverse, r2)
      | _ => none

/-- Parse the members of a non-empty object, starting at a member key. -/
def parseObjRest (fuel : Nat) (acc : List (String × Json)) (s : List Char) :
    Option (Json × List Char) :=
  match fuel with
  | 0 => none
  | f + 1 =>
    match skipWs s with
    | '"' :: r =>
      match parseStrBody (r.length + 1) [] r with
      | none => none
      | some (key, r2) =>
        match skipWs r2 with
        | ':' :: r3 =>
          match parseVal f r3 with
          | none => none
          | some (v, r4) =>
            match skipWs r4 with
            | ',' :: r5 => parseObjRest f ((key, v) :: acc) r5
            | '}' :: r5 => some (.obj ((key, v) :: acc).reverse, r5)
            | _ => none
        | _ => none
    | _ => none

end

/-- Model of Python `json.loads` on a character list: one JSON value with
only whitespace around it.  (`NaN`/`Infinity` extensions are not modelled;
no claim involves them.) -/
def jloads (l : List Char) : Option Json :=
  match parseVal (4 * l.length + 16) l with
  | some (j, rest) => if (skipWs rest).isEmpty then some j else none
  | none => none

/-- Python dict lookup on a decoded JSON object: last binding wins;
`none` models a missing key (Python `dict.get` returning `None` /
`d[k]` raising `KeyError`). -/
def jget (j : Json) (k : String) : Option Json :=
  match j with
  | .obj ms => ms.foldl (fun acc p => if p.1 == k then some p.2 else acc) none
  | _ => none

/-- Python `dict.get(k, default)`. -/
def jgetD (j : Json) (k : String) (d : Json) : Json :=
  (jget j k).getD d

/-! ### The tool-call span scanner

`parse_tool_calls` (src/backend/main.py:257-274 and
src/backend/app/worker.py:133-142) runs
`re.findall(r'<tool_call>\s*({.*?})\s*</tool_call>', response, re.DOTALL)`
and json-decodes each captured group.  The scanner below realises exactly
the search semantics of that pattern: candidate matches start at literal
occurrences of `<tool_call>`, greedy `\s*` before a mandatory brace, a lazy
body ended by the first `}` that is followed by optional whitespace and the
literal `</tool_call>`, and the search resumes after each full match
(after a failed candidate, one character further on). -/

/-- Python `\s` on the ASCII range (the delimiters and prompts in this
repository are ASCII). -/
def pySpace (c : Char) : Bool :=
  c = ' ' || c = '\t' || c = '\n' || c = '\r' ||
  c = Char.ofNat 11 || c = Char.ofNat 12

/-- Greedy `\s*`. -/
def dropSpaces : List Char → List Char
  | [] => []
  | c :: cs => if pySpace c then dropSpaces cs else c :: cs

/-- The opening delimiter literal. -/
def openTag : List Char :=
  ['<', 't', 'o', 'o', 'l', '_', 'c', 'a', 'l', 'l', '>']

/-- The closing delimiter literal. -/
def closeTag : List Char :=
  ['<', '/', 't', 'o', 'o', 'l', '_', 'c', 'a', 'l', 'l', '>']

/-- Literal-prefix test. -/
def litPfx : List Char → List Char → Bool
  | [], _ => true
  | _ :: _, [] => false
  | a :: as, b :: bs => a == b && litPfx as bs

/-- After the `}` candidate that would close the lazy group: consume
`\s*</tool_call>` or fail. -/
def stripCloseTag (s : List Char) : Option (List Char) :=
  let t := dropSpaces s
  if litPfx closeTag t then some (t.drop 12) else none

/-- The lazy `.*?` of the group body: the shortest split
`s = X ++ '}' :: rest` such that `rest` begins with `\s*</tool_call>`;
returns the body `X` and the input after the closing tag. -/
def lazyBrace : List Char → Option (List Char × List Char)
  | [] => none
  | c :: cs =>
    if c = '}' then
      match stripCloseTag cs with
      | some after => some ([], after)
      | none =>
        match lazyBrace cs with
        | some (x, a) => some (c :: x, a)
        | none => none
    else
      match lazyBrace cs with
      | some (x, a) => some (c :: x, a)
      | none => none

/-- Attempt a full pattern match anchored at the current position: the
literal `<tool_call>`, greedy `\\s*`, a mandatory `{`, the lazy body, `}`,
greedy `\\s*`, the literal `</tool_call>`.  On success, return the captured
group (braces included) and the input after the whole match. -/
def scanStep? (s : List Char) : Option (List Char × List Char) :=
  if litPfx openTag s then
    match dropSpaces (s.drop 11) with
    | '{' :: rest =>
      match lazyBrace rest with
      | some (x, after) => some ('{' :: (x ++ ['}']), after)
      | none => none
    | _ => none
  else none

/-- One `re.findall` scan, fueled by the input length: at each position,
try to complete a full match of the tool-call pattern; on success emit the
captured group and resume after the match, otherwise advance one
character. -/
def findSpansAux : Nat → List Char → List (List Char)
  | 0, _ => []
  | _, [] => []
  | fuel + 1, c :: cs =>
    match scanStep? (c :: cs) with
    | some (g, after) => g :: findSpansAux fuel after
    | none => findSpansAux fuel cs

/-- All captured `{...}` groups of the tool-call pattern, in order of
appearance. -/
def findSpansL (s : List Char) : List (List Char) :=
  findSpansAux s.length s

/-- `parse_tool_calls` of src/backend/app/worker.py:133-142: json-decode
every captured span, silently skipping spans that fail to decode. -/
def parse_tool_calls (response : String) : List Json :=
  (findSpansL response.data).filterMap jloads

/-- `parse_tool_calls` of src/backend/main.py:257-274.  Identical span
scanning and decode-failure handling, but after appending a decoded call it
evaluates `logging.info(f"Parsed tool call: {tool_call['name']}")`, whose
subscript raises `KeyError` when the decoded object has no `"name"` key;
the exception propagates out of the function.  `none` models that
uncaught exception. -/
def parseMainAux : List (List Char) → Option (List Json)
  | [] => some []
  | m :: ms =>
    match jloads m with
    | none => parseMainAux ms
    | some j =>
      match jget j "name" with
      | none => none
      | some _ =>
        match parseMainAux ms with
        | some l => some (j :: l)
        | none => none

/-- The main.py parser over a raw response string (see `parseMainAux`). -/
def parse_tool_calls_main (response : String) : Option (List Json) :=
  parseMainAux (findSpansL response.data)

example : parse_tool_calls
    "pre <tool_call>\x7b\"name\": \"A\", \"arguments\": \x7b\x7d\x7d</tool_call> post" =
    [Json.obj [("name", Json.str "A"), ("arguments", Json.obj [])]] := by rfl

example : parse_tool_calls "no calls here" = [] := by rfl

example : parse_tool_calls "<tool_call>\x7bbroken</tool_call>" = [] := by rfl

example : parse_tool_calls_main "<tool_call>\x7b\x7d</tool_call>" = none := by rfl


/-! ### Scanner metatheory -/

lemma dropSpaces_length (l : List Char) : (dropSpaces l).length ≤ l.length := by
  induction l with
  | nil => simp [dropSpaces]
  | cons c cs ih =>
    simp only [dropSpaces]
    split
    · exact le_trans ih (Nat.le_succ _)
    · simp

lemma stripCloseTag_length {s a : List Char} (h : stripCloseTag s = some a) :
    a.length ≤ s.length := by
  unfold stripCloseTag at h
  by_cases hp : litPfx closeTag (dropSpaces s) = true
  · simp only [hp, if_true] at h
    cases h
    calc ((dropSpaces s).drop 12).length ≤ (dropSpaces s).length := by
          rw [List.length_drop]; omega
      _ ≤ s.length := dropSpaces_length s
  · simp only [hp, if_false] at h
    simp at h

lemma lazyBrace_length :
    ∀ {l x a : List Char}, lazyBrace l = some (x, a) → a.length ≤ l.length := by
  intro l
  induction l with
  | nil => intro x a h; cases h
  | cons c cs ih =>
    intro x a h
    unfold lazyBrace at h
    split at h
    · cases hs : stripCloseTag cs with
      | some af =>
        rw [hs] at h
        cases h
        exact le_trans (stripCloseTag_length hs) (Nat.le_succ _)
      | none =>
        rw [hs] at h
        cases hl : lazyBrace cs with
        | some p =>
          obtain ⟨x', a'⟩ := p
          rw [hl] at h
          cases h
          exact le_trans (ih hl) (Nat.le_succ _)
        | none => rw [hl] at h; cases h
    · cases hl : lazyBrace cs with
      | some p =>
        obtain ⟨x', a'⟩ := p
        rw [hl] at h
        cases h
        exact le_trans (ih hl) (Nat.le_succ _)
      | none => rw [hl] at h; cases h

lemma scanStep?_length :
    ∀ {c : Char} {cs g after : List Char},
      scanStep? (c :: cs) = some (g, after) → after.length ≤ cs.length := by
  intro c cs g after h
  unfold scanStep? at h
  split at h
  · split at h
    · rename_i rest hd
      cases hl : lazyBrace rest with
      | some p =>
        obtain ⟨x, a⟩ := p
        rw [hl] at h
        cases h
        have h1 := lazyBrace_length hl
        have h2 : (('{' : Char) :: rest).length ≤ ((c :: cs).drop 11).length := by
          rw [← hd]; exact dropSpaces_length _
        simp only [List.length_cons, List.length_drop, List.length_cons] at h2
        omega
      | none => rw [hl] at h; cases h
    · cases h
  · cases h

lemma findSpansAux_nil (f : Nat) : findSpansAux f [] = [] := by
  cases f <;> rfl

/-- The scan result is independent of the fuel, once the fuel covers the
input length. -/
lemma findSpansAux_congr :
    ∀ n : Nat, ∀ s : List Char, s.length ≤ n →
      ∀ f1 f2 : Nat, s.length ≤ f1 → s.length ≤ f2 →
        findSpansAux f1 s = findSpansAux f2 s := by
  intro n
  induction n with
  | zero =>
    intro s hs f1 f2 _ _
    have : s = [] := List.length_eq_zero.mp (Nat.le_zero.mp hs)
    subst this
    rw [findSpansAux_nil, findSpansAux_nil]
  | succ n ih =>
    intro s hs f1 f2 h1 h2
    cases s with
    | nil => rw [findSpansAux_nil, findSpansAux_nil]
    | cons c cs =>
      simp only [List.length_cons] at hs h1 h2
      obtain ⟨a, rfl⟩ : ∃ a, f1 = a + 1 := ⟨f1 - 1, by omega⟩
      obtain ⟨b, rfl⟩ : ∃ b, f2 = b + 1 := ⟨f2 - 1, by omega⟩
      have hcs : cs.length ≤ n := by omega
      simp only [findSpansAux]
      cases hstep : scanStep? (c :: cs) with
      | some p =>
        obtain ⟨g, after⟩ := p
        have hafter := scanStep?_length hstep
        show g :: findSpansAux a after = g :: findSpansAux b after
        rw [ih after (le_trans hafter hcs) a b
          (le_trans hafter (by omega)) (le_trans hafter (by omega))]
      | none =>
        show findSpansAux a cs = findSpansAux b cs
        exact ih cs hcs a b (by omega) (by omega)

/-- Evaluate the scan at any sufficient fuel. -/
lemma findSpansAux_eq_findSpansL {f : Nat} {s : List Char}
    (h : s.length ≤ f) : findSpansAux f s = findSpansL s :=
  findSpansAux_congr s.length s le_rfl f s.length h le_rfl

lemma findSpansL_cons_step {c : Char} {cs g after : List Char}
    (h : scanStep? (c :: cs) = some (g, after)) :
    findSpansL (c :: cs) = g :: findSpansL after := by
  have hafter := scanStep?_length h
  unfold findSpansL
  simp only [List.length_cons, findSpansAux, h]
  rw [findSpansAux_eq_findSpansL hafter]
  rfl

lemma findSpansL_cons_fail {c : Char} {cs : List Char}
    (h : scanStep? (c :: cs) = none) :
    findSpansL (c :: cs) = findSpansL cs := by
  unfold findSpansL
  simp only [List.length_cons, findSpansAux, h]

lemma litPfx_append_self (l m : List Char) : litPfx l (l ++ m) = true := by
  induction l with
  | nil => rfl
  | cons a as ih => simp [litPfx, ih]

lemma scanStep?_none_of_head_ne {c : Char} (cs : List Char) (h : c ≠ '<') :
    scanStep? (c :: cs) = none := by
  unfold scanStep?
  have : litPfx openTag (c :: cs) = false := by
    simp only [openTag, litPfx, Bool.and_eq_false_iff]
    left
    exact beq_eq_false_iff_ne.mpr (Ne.symm h)
  simp [this]

lemma findSpansL_no_lt {t : List Char} (h : '<' ∉ t) : findSpansL t = [] := by
  induction t with
  | nil => rfl
  | cons c cs ih =>
    rw [findSpansL_cons_fail (scanStep?_none_of_head_ne cs (fun hc => h (hc ▸ List.mem_cons_self c cs)))]
    exact ih (fun hm => h (List.mem_cons_of_mem c hm))

lemma findSpansL_append_sep {sep : List Char} (s : List Char) (h : '<' ∉ sep) :
    findSpansL (sep ++ s) = findSpansL s := by
  induction sep with
  | nil => rfl
  | cons c cs ih =>
    rw [List.cons_append,
      findSpansL_cons_fail (scanStep?_none_of_head_ne _ (fun hc => h (hc ▸ List.mem_cons_self c cs)))]
    exact ih (fun hm => h (List.mem_cons_of_mem c hm))

lemma stripCloseTag_exact (rest : List Char) :
    stripCloseTag (closeTag ++ rest) = some rest := rfl

lemma stripCloseTag_inner_none :
    ∀ {l : List Char}, '<' ∉ l → ∀ z : List Char,
      stripCloseTag (l ++ '}' :: z) = none := by
  intro l
  induction l with
  | nil =>
    intro _ z
    rfl
  | cons c cs ih =>
    intro h z
    have hc : c ≠ '<' := fun hc => h (hc ▸ List.mem_cons_self c cs)
    unfold stripCloseTag
    by_cases hs : pySpace c = true
    · have : dropSpaces ((c :: cs) ++ '}' :: z) = dropSpaces (cs ++ '}' :: z) := by
        simp [dropSpaces, hs]
      rw [this]
      have := ih (fun hm => h (List.mem_cons_of_mem c hm)) z
      unfold stripCloseTag at this
      exact this
    · have hd : dropSpaces ((c :: cs) ++ '}' :: z) = c :: (cs ++ '}' :: z) := by
        simp [dropSpaces, hs]
      rw [hd]
      have : litPfx closeTag (c :: (cs ++ '}' :: z)) = false := by
        simp only [closeTag, litPfx, Bool.and_eq_false_iff]
        left
        exact beq_eq_false_iff_ne.mpr (Ne.symm hc)
      simp [this]

lemma lazyBrace_exact :
    ∀ {x : List Char}, '<' ∉ x → ∀ rest : List Char,
      lazyBrace (x ++ '}' :: (closeTag ++ rest)) = some (x, rest) := by
  intro x
  induction x with
  | nil =>
    intro _ rest
    show lazyBrace ('}' :: (closeTag ++ rest)) = some ([], rest)
    unfold lazyBrace
    simp [stripCloseTag_exact rest]
  | cons c cs ih =>
    intro h rest
    have htail : '<' ∉ cs := fun hm => h (List.mem_cons_of_mem c hm)
    show lazyBrace (c :: (cs ++ '}' :: (closeTag ++ rest))) = some (c :: cs, rest)
    unfold lazyBrace
    by_cases hc : c = '}'
    · subst hc
      rw [stripCloseTag_inner_none htail (closeTag ++ rest)]
      simp [ih htail rest]
    · simp only [hc, if_false]
      simp [ih htail rest]

/-- The captured group of a span whose brace body is `x`. -/
def spanBody (x : List Char) : List Char := '{' :: (x ++ ['}'])

/-- A well-delimited tool-call span with brace body `x`:
`<tool_call>{x}</tool_call>`. -/
def mkSpanL (x : List Char) : List Char :=
  openTag ++ ('{' :: (x ++ '}' :: closeTag))

lemma scanStep?_span {x : List Char} (h : '<' ∉ x) (rest : List Char) :
    scanStep? (openTag ++ ('{' :: (x ++ '}' :: (closeTag ++ rest)))) =
      some (spanBody x, rest) := by
  unfold scanStep?
  rw [litPfx_append_self]
  have hdrop : (openTag ++ ('{' :: (x ++ '}' :: (closeTag ++ rest)))).drop 11 =
      '{' :: (x ++ '}' :: (closeTag ++ rest)) := rfl
  rw [if_pos rfl, hdrop]
  have hds : dropSpaces ('{' :: (x ++ '}' :: (closeTag ++ rest))) =
      '{' :: (x ++ '}' :: (closeTag ++ rest)) := rfl
  rw [hds]
  simp only [lazyBrace_exact h rest]
  rfl

lemma findSpansL_mkSpan {x : List Char} (h : '<' ∉ x) (rest : List Char) :
    findSpansL (mkSpanL x ++ rest) = spanBody x :: findSpansL rest := by
  have hshape : mkSpanL x ++ rest =
      openTag ++ ('{' :: (x ++ '}' :: (closeTag ++ rest))) := by
    simp [mkSpanL, List.append_assoc]
  have hcons : openTag ++ ('{' :: (x ++ '}' :: (closeTag ++ rest))) =
      '<' :: (['t', 'o', 'o', 'l', '_', 'c', 'a', 'l', 'l', '>'] ++
        ('{' :: (x ++ '}' :: (closeTag ++ rest)))) := rfl
  rw [hshape, hcons]
  have hstep : scanStep? ('<' :: (['t', 'o', 'o', 'l', '_', 'c', 'a', 'l',
      'l', '>'] ++ ('{' :: (x ++ '}' :: (closeTag ++ rest))))) =
      some (spanBody x, rest) := hcons ▸ scanStep?_span h rest
  rw [findSpansL_cons_step hstep]

/-- A model response assembled from separator texts and brace-delimited
span bodies, ending with a trailing separator. -/
def assembleL : List (List Char × List Char) → List Char → List Char
  | [], t => t
  | p :: ps, t => p.1 ++ (mkSpanL p.2 ++ assembleL ps t)

/-- On a response built from `<`-free separators and `<`-free span bodies,
the scan returns exactly the braced span bodies, in order of appearance. -/
lemma findSpansL_assembleL :
    ∀ {ps : List (List Char × List Char)} {t : List Char},
      (∀ p ∈ ps, '<' ∉ p.1 ∧ '<' ∉ p.2) → '<' ∉ t →
      findSpansL (assembleL ps t) = ps.map (fun p => spanBody p.2) := by
  intro ps
  induction ps with
  | nil => intro t _ ht; exact findSpansL_no_lt ht
  | cons p ps ih =>
    intro t hp ht
    have h1 := hp p (List.mem_cons_self p ps)
    rw [assembleL, findSpansL_append_sep _ h1.1, findSpansL_mkSpan h1.2,
      ih (fun q hq => hp q (List.mem_cons_of_mem p hq)) ht]
    rfl

/-! ### The residual-span stripper

src/backend/main.py:401 (and src/backend/app/worker.py:206) removes
residual tool-call syntax from the second generation with
`re.sub(r'<tool_call>.*?</tool_call>', '', final_response, flags=re.DOTALL)`
followed by `.strip()`. -/

/-- The lazy `.*?</tool_call>` tail of the strip pattern: consume up to and
including the first occurrence of the closing literal. -/
def lazyToClose : List Char → Option (List Char)
  | [] => none
  | c :: cs =>
    if litPfx closeTag (c :: cs) then some ((c :: cs).drop 12)
    else lazyToClose cs

/-- Attempt a strip-pattern match anchored at the current position. -/
def stripStep? (s : List Char) : Option (List Char) :=
  if litPfx openTag s then lazyToClose (s.drop 11) else none

/-- One `re.sub` scan, fueled by the input length: matched spans are
dropped, unmatched characters are kept. -/
def stripSpansAux : Nat → List Char → List Char
  | 0, s => s
  | _, [] => []
  | fuel + 1, c :: cs =>
    match stripStep? (c :: cs) with
    | some after => stripSpansAux fuel after
    | none => c :: stripSpansAux fuel cs

/-- `re.sub(r'<tool_call>.*?</tool_call>', '', s, flags=re.DOTALL)`. -/
def stripSpansL (s : List Char) : List Char :=
  stripSpansAux s.length s

/-- The same substitution on strings. -/
def stripToolCallTags (s : String) : String :=
  ⟨stripSpansL s.data⟩

lemma lazyToClose_length :
    ∀ {l a : List Char}, lazyToClose l = some a → a.length ≤ l.length := by
  intro l
  induction l with
  | nil => intro a h; cases h
  | cons c cs ih =>
    intro a h
    unfold lazyToClose at h
    split at h
    · cases h
      simp only [List.length_drop, List.length_cons]
      omega
    · exact le_trans (ih h) (Nat.le_succ _)

lemma stripStep?_length :
    ∀ {c : Char} {cs after : List Char},
      stripStep? (c :: cs) = some after → after.length ≤ cs.length := by
  intro c cs after h
  unfold stripStep? at h
  split at h
  · have := lazyToClose_length h
    simp only [List.length_drop, List.length_cons] at this
    omega
  · cases h

lemma stripSpansAux_nil (f : Nat) : stripSpansAux f [] = [] := by
  cases f <;> rfl

lemma stripSpansAux_congr :
    ∀ n : Nat, ∀ s : List Char, s.length ≤ n →
      ∀ f1 f2 : Nat, s.length ≤ f1 → s.length ≤ f2 →
        stripSpansAux f1 s = stripSpansAux f2 s := by
  intro n
  induction n with
  | zero =>
    intro s hs f1 f2 _ _
    have : s = [] := List.length_eq_zero.mp (Nat.le_zero.mp hs)
    subst this
    rw [stripSpansAux_nil, stripSpansAux_nil]
  | succ n ih =>
    intro s hs f1 f2 h1 h2
    cases s with
    | nil => rw [stripSpansAux_nil, stripSpansAux_nil]
    | cons c cs =>
      simp only [List.length_cons] at hs h1 h2
      obtain ⟨a, rfl⟩ : ∃ a, f1 = a + 1 := ⟨f1 - 1, by omega⟩
      obtain ⟨b, rfl⟩ : ∃ b, f2 = b + 1 := ⟨f2 - 1, by omega⟩
      have hcs : cs.length ≤ n := by omega
      simp only [stripSpansAux]
      cases hstep : stripStep? (c :: cs) with
      | some after =>
        have hafter := stripStep?_length hstep
        show stripSpansAux a after = stripSpansAux b after
        exact ih after (le_trans hafter hcs) a b
          (le_trans hafter (by omega)) (le_trans hafter (by omega))
      | none =>
        show c :: stripSpansAux a cs = c :: stripSpansAux b cs
        rw [ih cs hcs a b (by omega) (by omega)]

lemma stripSpansAux_eq_stripSpansL {f : Nat} {s : List Char}
    (h : s.length ≤ f) : stripSpansAux f s = stripSpansL s :=
  stripSpansAux_congr s.length s le_rfl f s.length h le_rfl

lemma stripSpansL_cons_step {c : Char} {cs after : List Char}
    (h : stripStep? (c :: cs) = some after) :
    stripSpansL (c :: cs) = stripSpansL after := by
  have hafter := stripStep?_length h
  unfold stripSpansL
  simp only [List.length_cons, stripSpansAux, h]
  exact stripSpansAux_eq_stripSpansL hafter

lemma stripSpansL_cons_fail {c : Char} {cs : List Char}
    (h : stripStep? (c :: cs) = none) :
    stripSpansL (c :: cs) = c :: stripSpansL cs := by
  unfold stripSpansL
  simp only [List.length_cons, stripSpansAux, h]

lemma stripStep?_none_of_head_ne {c : Char} (cs : List Char) (h : c ≠ '<') :
    stripStep? (c :: cs) = none := by
  unfold stripStep?
  have : litPfx openTag (c :: cs) = false := by
    simp only [openTag, litPfx, Bool.and_eq_false_iff]
    left
    exact beq_eq_false_iff_ne.mpr (Ne.symm h)
  simp [this]

lemma stripSpansL_no_lt {t : List Char} (h : '<' ∉ t) : stripSpansL t = t := by
  induction t with
  | nil => rfl
  | cons c cs ih =>
    rw [stripSpansL_cons_fail (stripStep?_none_of_head_ne cs
      (fun hc => h (hc ▸ List.mem_cons_self c cs)))]
    rw [ih (fun hm => h (List.mem_cons_of_mem c hm))]

lemma stripSpansL_append_sep {sep : List Char} (s : List Char)
    (h : '<' ∉ sep) : stripSpansL (sep ++ s) = sep ++ stripSpansL s := by
  induction sep with
  | nil => rfl
  | cons c cs ih =>
    rw [List.cons_append, stripSpansL_cons_fail (stripStep?_none_of_head_ne _
      (fun hc => h (hc ▸ List.mem_cons_self c cs)))]
    rw [ih (fun hm => h (List.mem_cons_of_mem c hm))]
    rfl

lemma lazyToClose_exact :
    ∀ {y : List Char}, '<' ∉ y → ∀ rest : List Char,
      lazyToClose (y ++ (closeTag ++ rest)) = some rest := by
  intro y
  induction y with
  | nil =>
    intro _ rest
    show lazyToClose (closeTag ++ rest) = some rest
    have hc : closeTag ++ rest = '<' :: (['/', 't', 'o', 'o', 'l', '_', 'c',
      'a', 'l', 'l', '>'] ++ rest) := rfl
    rw [hc]
    unfold lazyToClose
    rw [← hc, if_pos (litPfx_append_self closeTag rest)]
    rfl
  | cons c cs ih =>
    intro h rest
    have hc : c ≠ '<' := fun hc => h (hc ▸ List.mem_cons_self c cs)
    show lazyToClose (c :: (cs ++ (closeTag ++ rest))) = some rest
    unfold lazyToClose
    have : litPfx closeTag (c :: (cs ++ (closeTag ++ rest))) = false := by
      simp only [closeTag, litPfx, Bool.and_eq_false_iff]
      left
      exact beq_eq_false_iff_ne.mpr (Ne.symm hc)
    rw [if_neg (by simp [this])]
    exact ih (fun hm => h (List.mem_cons_of_mem c hm)) rest

/-- A residual span in a second-generation output: `<tool_call>`,
arbitrary `<`-free body, `</tool_call>`. -/
def residualSpan (y : List Char) : List Char := openTag ++ (y ++ closeTag)

lemma stripStep?_residual {y : List Char} (h : '<' ∉ y) (rest : List Char) :
    stripStep? (residualSpan y ++ rest) = some rest := by
  have hshape : residualSpan y ++ rest = openTag ++ (y ++ (closeTag ++ rest)) := by
    simp [residualSpan, List.append_assoc]
  rw [hshape]
  unfold stripStep?
  rw [if_pos (litPfx_append_self openTag _)]
  have hdrop : (openTag ++ (y ++ (closeTag ++ rest))).drop 11 =
      y ++ (closeTag ++ rest) := rfl
  rw [hdrop]
  exact lazyToClose_exact h rest

lemma stripSpansL_residual {y : List Char} (h : '<' ∉ y) (rest : List Char) :
    stripSpansL (residualSpan y ++ rest) = stripSpansL rest := by
  have hcons : residualSpan y ++ rest = '<' :: (['t', 'o', 'o', 'l', '_',
      'c', 'a', 'l', 'l', '>'] ++ (y ++ (closeTag ++ rest))) := by
    simp [residualSpan, openTag, List.append_assoc]
  rw [hcons]
  exact stripSpansL_cons_step (hcons ▸ stripStep?_residual h rest)

/-- A second generation assembled from `<`-free filler texts and residual
spans, with a trailing filler. -/
def sAssembleL : List (List Char × List Char) → List Char → List Char
  | [], t => t
  | p :: ps, t => p.1 ++ (residualSpan p.2 ++ sAssembleL ps t)

/-- The filler texts alone, in order. -/
def sFillers : List (List Char × List Char) → List Char → List Char
  | [], t => t
  | p :: ps, t => p.1 ++ sFillers ps t

/-- The substitution removes every residual span and keeps every filler. -/
lemma stripSpansL_sAssembleL :
    ∀ {ps : List (List Char × List Char)} {t : List Char},
      (∀ p ∈ ps, '<' ∉ p.1 ∧ '<' ∉ p.2) → '<' ∉ t →
      stripSpansL (sAssembleL ps t) = sFillers ps t := by
  intro ps
  induction ps with
  | nil => intro t _ ht; exact stripSpansL_no_lt ht
  | cons p ps ih =>
    intro t hp ht
    have h1 := hp p (List.mem_cons_self p ps)
    rw [sAssembleL, stripSpansL_append_sep _ h1.1, stripSpansL_residual h1.2,
      ih (fun q hq => hp q (List.mem_cons_of_mem p hq)) ht]
    rfl

/-! ### JSON serialization (`json.dumps` with default options) -/

/-- Lowercase hex digit. -/
def hexDigit (n : Nat) : Char :=
  if n < 10 then Char.ofNat ('0'.toNat + n) else Char.ofNat ('a'.toNat + n - 10)

/-- Four-digit lowercase hex, as in Python `\uXXXX` escapes. -/
def u4 (n : Nat) : List Char :=
  [hexDigit (n / 4096 % 16), hexDigit (n / 256 % 16),
   hexDigit (n / 16 % 16), hexDigit (n % 16)]

/-- `json.dumps` escaping of one character (`ensure_ascii=True`): quote,
backslash and the named control escapes get short forms, printable ASCII is
kept, everything else becomes `\uXXXX` (astral characters as surrogate
pairs). -/
def escChar (c : Char) : List Char :=
  if c = '"' then ['\\', '"']
  else if c = '\\' then ['\\', '\\']
  else if c = '\n' then ['\\', 'n']
  else if c = '\r' then ['\\', 'r']
  else if c = '\t' then ['\\', 't']
  else if c.toNat = 8 then ['\\', 'b']
  else if c.toNat = 12 then ['\\', 'f']
  else if 0x20 ≤ c.toNat && c.toNat ≤ 0x7e then [c]
  else if c.toNat < 0x10000 then '\\' :: 'u' :: u4 c.toNat
  else
    let m := c.toNat - 0x10000
    ('\\' :: 'u' :: u4 (0xD800 + m / 0x400)) ++
      ('\\' :: 'u' :: u4 (0xDC00 + m % 0x400))

/-- `json.dumps` of a string value. -/
def jquote (s : String) : String :=
  ⟨'"' :: s.data.foldr (fun c acc => escChar c ++ acc) ['"']⟩

mutual

/-- `json.dumps` with default separators `", "` and `": "`. -/
def jdumps : Json → String
  | .null => "null"
  | .bool b => if b then "true" else "false"
  | .num s => s
  | .str s => jquote s
  | .arr l => "[" ++ jdumpsElems l ++ "]"
  | .obj l => "\x7b" ++ jdumpsMembers l ++ "\x7d"

/-- Array elements joined by `", "`. -/
def jdumpsElems : List Json → String
  | [] => ""
  | [j] => jdumps j
  | j :: js => jdumps j ++ ", " ++ jdumpsElems js

/-- Object members `key: value` joined by `", "`. -/
def jdumpsMembers : List (String × Json) → String
  | [] => ""
  | [(k, j)] => jquote k ++ ": " ++ jdumps j
  | (k, j) :: ms => jquote k ++ ": " ++ jdumps j ++ ", " ++ jdumpsMembers ms

end

example : jdumps (Json.obj [("name", Json.str "A"), ("results", Json.str "ok")]) =
    "\x7b\"name\": \"A\", \"results\": \"ok\"\x7d" := by rfl

/-! ### Conversation state (src/archive/conversation_manager.py)

`ConversationContext.add_message` (lines 38-47) appends a message, then, if
`len(self.messages) > self.max_history`, rebuilds the list as all
`system`-role messages followed by the Python slice `[-self.max_history:]`
of the non-system messages. -/

/-- A chat message; the embedding keeps the fields the trimming logic
reads (`role`) plus the payload. -/
structure PMessage where
  role : String
  content : String
deriving DecidableEq

/-- `m.role == 'system'`. -/
def isSystem (m : PMessage) : Bool := m.role == "system"

/-- `m.role != 'system'`. -/
def nonSystem (m : PMessage) : Bool := !(m.role == "system")

/-- The Python slice `l[-k:]`: for `k ≥ 1` the suffix of the last
`min (l.length) k` elements; for `k = 0` it is `l[0:]`, the whole list. -/
def pySliceLast (k : Nat) (l : List PMessage) : List PMessage :=
  if k = 0 then l else l.drop (l.length - k)

/-- `ConversationContext` state: ordered messages and the retention bound
`max_history` (default 20 in the source). -/
structure ConversationContext where
  conversation_id : String
  messages : List PMessage
  max_history : Nat

/-- `ConversationContext.add_message` (lines 38-47). -/
def add_message (ctx : ConversationContext) (role content : String) :
    ConversationContext :=
  let ms := ctx.messages ++ [⟨role, content⟩]
  if ctx.max_history < ms.length then
    { ctx with messages :=
        ms.filter isSystem ++ pySliceLast ctx.max_history (ms.filter nonSystem) }
  else
    { ctx with messages := ms }

/-- A fresh conversation (`messages = []`). -/
def newConversation (cid : String) (k : Nat) : ConversationContext :=
  ⟨cid, [], k⟩

/-- A sequence of `add_message` calls. -/
def addAll (ctx : ConversationContext) (adds : List (String × String)) :
    ConversationContext :=
  adds.foldl (fun c p => add_message c p.1 p.2) ctx

/-- The messages a sequence of additions carries. -/
def msgsOf (adds : List (String × String)) : List PMessage :=
  adds.map (fun p => ⟨p.1, p.2⟩)

/-- The suffix of the last `min (l.length) k` elements. -/
def lastK (k : Nat) (l : List PMessage) : List PMessage :=
  l.drop (l.length - k)

lemma add_message_max (ctx : ConversationContext) (r c : String) :
    (add_message ctx r c).max_history = ctx.max_history := by
  unfold add_message
  dsimp only
  split <;> rfl

lemma addAll_max (adds : List (String × String)) :
    ∀ ctx : ConversationContext,
      (addAll ctx adds).max_history = ctx.max_history := by
  induction adds with
  | nil => intro ctx; rfl
  | cons p ps ih =>
    intro ctx
    show (addAll (add_message ctx p.1 p.2) ps).max_history = _
    rw [ih, add_message_max]

lemma lastK_append (k : Nat) (n m : List PMessage) :
    lastK k (lastK k n ++ m) = lastK k (n ++ m) := by
  by_cases h : n.length ≤ k
  · have h1 : lastK k n = n := by
      unfold lastK
      have : n.length - k = 0 := by omega
      rw [this, List.drop_zero]
    rw [h1]
  · unfold lastK
    rw [List.length_append, List.length_append, List.length_drop]
    rw [List.drop_append_eq_append_drop, List.drop_append_eq_append_drop]
    rw [List.drop_drop, List.length_drop]
    congr 2 <;> omega

lemma filter_isSystem_idem (l : List PMessage) :
    (l.filter isSystem).filter isSystem = l.filter isSystem := by
  apply List.filter_eq_self.mpr
  intro a ha
  exact (List.mem_filter.mp ha).2

lemma filter_nonSystem_of_isSystem (l : List PMessage) :
    (l.filter isSystem).filter nonSystem = [] := by
  apply List.filter_eq_nil_iff.mpr
  intro a ha
  have := (List.mem_filter.mp ha).2
  simp [nonSystem, isSystem] at this ⊢
  exact this

lemma filter_isSystem_of_nonSystem_drop (l : List PMessage) (j : Nat) :
    ((l.filter nonSystem).drop j).filter isSystem = [] := by
  apply List.filter_eq_nil_iff.mpr
  intro a ha
  have := (List.mem_filter.mp (List.drop_subset j _ ha)).2
  simp [nonSystem, isSystem] at this ⊢
  exact this

lemma filter_nonSystem_of_nonSystem_drop (l : List PMessage) (j : Nat) :
    ((l.filter nonSystem).drop j).filter nonSystem = (l.filter nonSystem).drop j := by
  apply List.filter_eq_self.mpr
  intro a ha
  exact (List.mem_filter.mp (List.drop_subset j _ ha)).2

lemma pySliceLast_pos {k : Nat} (hk : 1 ≤ k) (l : List PMessage) :
    pySliceLast k l = lastK k l := by
  unfold pySliceLast lastK
  rw [if_neg (by omega)]

lemma filter_isSystem_lastK (l : List PMessage) (k : Nat) :
    (lastK k (l.filter nonSystem)).filter isSystem = [] :=
  filter_isSystem_of_nonSystem_drop l _

lemma filter_nonSystem_lastK (l : List PMessage) (k : Nat) :
    (lastK k (l.filter nonSystem)).filter nonSystem =
      lastK k (l.filter nonSystem) :=
  filter_nonSystem_of_nonSystem_drop l _

lemma lastK_append_of_le (k : Nat) (n m : List PMessage)
    (h : (lastK k n).length + m.length ≤ k) :
    lastK k n ++ m = lastK k (n ++ m) := by
  unfold lastK at h ⊢
  rw [List.length_drop] at h
  by_cases hn : n.length ≤ k
  · have e1 : n.length - k = 0 := by omega
    rw [e1, List.drop_zero]
    rw [e1] at h
    have e2 : (n ++ m).length - k = 0 := by
      rw [List.length_append]; omega
    rw [e2, List.drop_zero]
  · have hm : m = [] := List.length_eq_zero.mp (by omega)
    subst hm
    rw [List.append_nil, List.append_nil]

/-- One `add_message` step preserves the trimming invariant: all system
messages added so far are retained in order, and the retained non-system
messages are the most recent `min n max_history` ones, in order. -/
lemma add_message_filter (ctx : ConversationContext) (r c : String)
    (hk : 1 ≤ ctx.max_history) (all : List PMessage)
    (hS : ctx.messages.filter isSystem = all.filter isSystem)
    (hN : ctx.messages.filter nonSystem =
      lastK ctx.max_history (all.filter nonSystem)) :
    (add_message ctx r c).messages.filter isSystem =
      (all ++ [PMessage.mk r c]).filter isSystem ∧
    (add_message ctx r c).messages.filter nonSystem =
      lastK ctx.max_history ((all ++ [PMessage.mk r c]).filter nonSystem) := by
  have hmsfS : (ctx.messages ++ [PMessage.mk r c]).filter isSystem
      = (all ++ [PMessage.mk r c]).filter isSystem := by
    rw [List.filter_append, List.filter_append, hS]
  have hmsfN : (ctx.messages ++ [PMessage.mk r c]).filter nonSystem
      = lastK ctx.max_history (all.filter nonSystem) ++
        List.filter nonSystem [PMessage.mk r c] := by
    rw [List.filter_append, hN]
  have key : lastK ctx.max_history
      ((ctx.messages ++ [PMessage.mk r c]).filter nonSystem)
      = lastK ctx.max_history ((all ++ [PMessage.mk r c]).filter nonSystem) := by
    rw [hmsfN, lastK_append, ← List.filter_append]
  unfold add_message
  dsimp only
  split
  · -- trim branch
    constructor
    · rw [List.filter_append, filter_isSystem_idem, pySliceLast_pos hk,
        filter_isSystem_lastK, List.append_nil, hmsfS]
    · rw [List.filter_append, filter_nonSystem_of_isSystem, pySliceLast_pos hk,
        filter_nonSystem_lastK, List.nil_append, key]
  · -- no-trim branch
    rename_i htrim
    refine ⟨hmsfS, ?_⟩
    have hlen : (lastK ctx.max_history (all.filter nonSystem)).length +
        (List.filter nonSystem [PMessage.mk r c]).length ≤ ctx.max_history := by
      have h1 := List.length_filter_le nonSystem
        (ctx.messages ++ [PMessage.mk r c])
      rw [hmsfN, List.length_append] at h1
      omega
    rw [hmsfN, List.filter_append]
    exact lastK_append_of_le _ _ _ hlen

/-- The trimming invariant propagated over any sequence of additions. -/
lemma addAll_filter :
    ∀ (adds : List (String × String)) (ctx : ConversationContext)
      (all : List PMessage), 1 ≤ ctx.max_history →
      ctx.messages.filter isSystem = all.filter isSystem →
      ctx.messages.filter nonSystem =
        lastK ctx.max_history (all.filter nonSystem) →
      (addAll ctx adds).messages.filter isSystem =
        (all ++ msgsOf adds).filter isSystem ∧
      (addAll ctx adds).messages.filter nonSystem =
        lastK ctx.max_history ((all ++ msgsOf adds).filter nonSystem) := by
  intro adds
  induction adds with
  | nil =>
    intro ctx all _ hS hN
    simpa [addAll, msgsOf] using ⟨hS, hN⟩
  | cons p ps ih =>
    intro ctx all hk hS hN
    have hstep := add_message_filter ctx p.1 p.2 hk all hS hN
    have hk2 : 1 ≤ (add_message ctx p.1 p.2).max_history := by
      rw [add_message_max]; exact hk
    have := ih (add_message ctx p.1 p.2) (all ++ [PMessage.mk p.1 p.2]) hk2
      (by rw [hstep.1]) (by rw [hstep.2, add_message_max])
    have hshape : all ++ [PMessage.mk p.1 p.2] ++ msgsOf ps =
        all ++ msgsOf (p :: ps) := by
      simp [msgsOf, List.append_assoc]
    rw [hshape] at this
    rw [add_message_max] at this
    exact this

/-! ### Job Queue Bridge and background executor

src/backend/youtube_mcp_server.py submits `transcript.fetch` by task name
to Celery, blocks up to a wait budget with `task.get(timeout=timeout)`, and
on any exception raises a `TimeoutError` whose text carries `task.id`;
`get_video_transcript` catches that `TimeoutError` and returns its text.
The exception handler performs no cancellation (`task.revoke` is never
called), so a timed-out job keeps being driven by the worker.
src/backend/worker.py executes the task, retrying on failure with
`self.retry(exc=e, countdown=5, max_retries=3)`. -/

/-- Celery task states observable through `AsyncResult.state` for the
tasks of this repository: `PENDING` (not yet finished, default reporting),
`STARTED` (with `task_track_started`), `RETRY` (between failed attempts),
and the terminal `SUCCESS` / `FAILURE`. -/
inductive CeleryState where
  | pending : CeleryState
  | started : CeleryState
  | retry : CeleryState
  | success : CeleryState
  | failure : CeleryState
deriving DecidableEq

/-- The textual state names Celery reports. -/
def celeryStateName : CeleryState → String
  | .pending => "PENDING"
  | .started => "STARTED"
  | .retry => "RETRY"
  | .success => "SUCCESS"
  | .failure => "FAILURE"

/-- The Python string slice `s[:n]`: the first `min n (length)`
characters. -/
def pyTake (s : String) (n : Nat) : String :=
  ⟨s.data.take n⟩

/-- `check_job_status` (src/backend/youtube_mcp_server.py:111-128): the
`SUCCESS` branch previews `res.result[:100]`, the `FAILURE` branch reports
`res.result` (the stored exception text), and every other state falls into
the generic waiting message. -/
def check_job_status (state : CeleryState) (result : String) : String :=
  match state with
  | .success => "Finished! Result preview: " ++ pyTake result 100 ++ "..."
  | .failure => "Failed: " ++ result
  | s => "Current Status: " ++ celeryStateName s ++ " (Please wait...)"

/-- The retry loop of `fetch_transcript_task` (src/backend/worker.py:19-36
and src/backend/mcp_server/worker.py:28-45).  `g i` models the `i`-th
execution of the task body (`get_transcript`), `.error` its raised
exception.  `remaining` counts the retries still allowed (`max_retries`),
`countdown` the fixed delay between attempts, `time` the start time of the
current attempt.  Returns the terminal outcome together with the start
times of all executed attempts. -/
def retryLoop (g : Nat → Except String String) (countdown : Nat) :
    Nat → Nat → Nat → Except String String × List Nat
  | 0, attempt, time =>
    (match g attempt with
     | .ok r => (.ok r, [time])
     | .error e => (.error e, [time]))
  | remaining + 1, attempt, time =>
    match g attempt with
    | .ok r => (.ok r, [time])
    | .error _ =>
      let rest := retryLoop g countdown remaining (attempt + 1) (time + countdown)
      (rest.1, time :: rest.2)

/-- `fetch_transcript_task`: the task body with Celery retry policy
`countdown=5, max_retries=3`, started at time 0. -/
def fetch_transcript_task (g : Nat → Except String String) :
    Except String String × List Nat :=
  retryLoop g 5 3 0 0

/-- What the Job Queue Bridge caller observes of a job: `task.get` blocks
through every non-terminal state (including `RETRY`) and resolves only the
terminal state and its stored result. -/
def bridge_view (g : Nat → Except String String) : CeleryState × String :=
  match (fetch_transcript_task g).1 with
  | .ok r => (.success, r)
  | .error e => (.failure, e)

/-- A submitted transcript job as the bridge sees it: its Celery id, the
time the background executor takes to finish it, and its terminal
outcome. -/
structure TranscriptJob where
  id : String
  duration : Nat
  outcome : Except String String

/-- Celery `AsyncResult.get(timeout=...)`: raises `TimeoutError` when the
job is not finished within the budget, re-raises the task exception when
the job failed, and returns the result otherwise. -/
def task_get (job : TranscriptJob) (timeout : Nat) : Except String String :=
  if timeout < job.duration then .error "celery.exceptions.TimeoutError"
  else job.outcome

/-- The deferred-job message raised by `_get_transcript_from_queue`
(src/backend/youtube_mcp_server.py:48-53). -/
def timeoutMessage (timeout : Nat) (jobId : String) : String :=
  "Video processing is taking longer than " ++ toString timeout ++
  "s (likely running Whisper). Job ID: " ++ jobId ++
  ". Please use check_job_status tool later."

/-- `_get_transcript_from_queue` (src/backend/youtube_mcp_server.py:34-53):
block up to `timeout` on `task.get`; on any exception from the wait, raise
`TimeoutError` with the job id.  The handler does not cancel the job. -/
def _get_transcript_from_queue (job : TranscriptJob) (timeout : Nat := 30) :
    Except String String :=
  match task_get job timeout with
  | .ok result => .ok result
  | .error _ => .error (timeoutMessage timeout job.id)

/-- `get_video_transcript` (src/backend/youtube_mcp_server.py:59-83):
return the transcript, or the text of the `TimeoutError` when the wait ran
out. -/
def get_video_transcript (job : TranscriptJob) (timeout : Nat := 30) : String :=
  match _get_transcript_from_queue job timeout with
  | .ok r => r
  | .error e => e

/-- The Celery state of a submitted job at time `t`: driven only by the
background executor (`PENDING` until the worker finishes it, terminal
afterwards); the bridge never mutates it. -/
def jobStateAt (job : TranscriptJob) (t : Nat) : CeleryState :=
  if t < job.duration then .pending
  else
    match job.outcome with
    | .ok _ => .success
    | .error _ => .failure

/-- The stored `AsyncResult.result` at time `t`: empty while unfinished,
then the result text or the exception text. -/
def jobResultAt (job : TranscriptJob) (t : Nat) : String :=
  if t < job.duration then ""
  else
    match job.outcome with
    | .ok r => r
    | .error e => e

/-! ### The Agent Loop (src/backend/main.py `intelligent_agent_response`,
src/backend/app/worker.py `intelligent_agent_logic`)

The generation collaborator (the Arch-Function model, called twice with
different sampling options) and the tool execution surface
(`execute_mcp_tool`) are external; they enter the embedding as oracle
functions.  The system prompt (`format_tools_prompt(get_available_tools())`)
is likewise opaque text. -/

/-- The external collaborators of one agent turn. -/
structure AgentOracle where
  systemPrompt : String
  gen1 : List PMessage → String
  gen2 : List PMessage → String
  exec : Option Json → Json → Json

/-- Python `None` serializes as JSON `null`. -/
def optToJson : Option Json → Json
  | some j => j
  | none => Json.null

/-- One entry of `execution_results`: the dict
`{"name": tool_name, "results": result}` built in main.py:354-357, where
`tool_name = tool_call.get("name")` and the arguments default to `{}`. -/
def execution_result (o : AgentOracle) (tc : Json) : Json :=
  Json.obj [("name", optToJson (jget tc "name")),
    ("results", o.exec (jget tc "name") (jgetD tc "arguments" (Json.obj [])))]

/-- `tool_results_text` (main.py:360-364): the fixed header, then each
outcome serialized with `json.dumps` and wrapped in the
`<tool_response>` delimiter pair, joined by newlines. -/
def tool_results_text (results : List Json) : String :=
  "TOOL RESULTS (use these to answer the user\x27s question):\n\n" ++
  String.intercalate "\n" (results.map (fun r =>
    "<tool_response>\n" ++ jdumps r ++ "\n</tool_response>"))

/-- The message list of the first generation call: the tool-instruction
system message followed by the conversation history. -/
def agentMessages1 (o : AgentOracle) (history : List PMessage) : List PMessage :=
  PMessage.mk "system" o.systemPrompt :: history

/-- The message list of the re-generation call: the first list plus the
single consolidated tool-result message, appended with role `"user"`
(main.py:371-374). -/
def agentMessages2 (o : AgentOracle) (history : List PMessage)
    (calls : List Json) : List PMessage :=
  agentMessages1 o history ++
    [PMessage.mk "user" (tool_results_text (calls.map (execution_result o)))]

/-- Python `.strip()`: drop whitespace from both ends. -/
def pyStrip (s : String) : String :=
  ⟨((s.data.dropWhile pySpace).reverse.dropWhile pySpace).reverse⟩

/-- Instrumentation of one turn: the message lists handed to the
generation collaborator, in order, and the `(name, arguments)` pairs handed
to `execute_mcp_tool`, in order. -/
structure AgentTrace where
  genMessages : List (List PMessage)
  toolExecs : List (Option Json × Json)

/-- `intelligent_agent_response` (main.py:292-408): generate, parse tool
calls, and either answer directly, or execute every parsed call in order,
append the consolidated tool-result message, re-generate once, and return
the re-generation output with residual `<tool_call>...</tool_call>` spans
removed and the result `.strip()`ed.  `none` models the `KeyError` that
the parser logging can raise (see `parse_tool_calls_main`). -/
def intelligent_agent_response (o : AgentOracle) (history : List PMessage) :
    Option (String × AgentTrace) :=
  let messages := agentMessages1 o history
  let response := o.gen1 messages
  match parse_tool_calls_main response with
  | none => none
  | some tool_calls =>
    if tool_calls.isEmpty then
      some (response, ⟨[messages], []⟩)
    else
      let messages2 := agentMessages2 o history tool_calls
      let final := o.gen2 messages2
      some (pyStrip (stripToolCallTags final),
        ⟨[messages, messages2],
         tool_calls.map (fun tc =>
           (jget tc "name", jgetD tc "arguments" (Json.obj [])))⟩)

/-! ### Lenient decoding (spec §4.2) -/

/-- Drop commas that directly precede (up to whitespace) a closing bracket
or brace — the "trailing comma" malformation named by the spec.  (String
contents are not protected; the development only evaluates this on
witness inputs without commas inside strings.) -/
def removeTrailingCommas : List Char → List Char
  | [] => []
  | c :: rest =>
    if c = ',' then
      match skipWs rest with
      | '}' :: _ => removeTrailingCommas rest
      | ']' :: _ => removeTrailingCommas rest
      | _ => c :: removeTrailingCommas rest
    else c :: removeTrailingCommas rest

/-- Follows the spec's words (§4.2): a lenient/"repair" decoding of common
malformations (here: trailing commas) attempted after strict decoding
fails.  No such step exists in `parse_tool_calls`; this definition exists
to compare the spec's described behaviour with the code's. -/
def spec_lenient_loads (l : List Char) : Option Json :=
  jloads (removeTrailingCommas l)

example : spec_lenient_loads ("\x7b\"name\": \"A\",\x7d".data) =
    some (Json.obj [("name", Json.str "A")]) := by rfl

/-! ### Claim theorems -/

/-- C1: a tool invocation offloaded through the Job Queue Bridge with wait
budget `timeout` returns the job's text when the background job completes
(successfully) within the budget; otherwise the call returns the
deferred-job message, which carries the stable job id verbatim, and the
job is not cancelled: the executor still drives it to its terminal state,
and a later status query on the same job succeeds with the preview. -/
theorem C1_bridge_wait_budget (job : TranscriptJob) (timeout : Nat) :
    (∀ r, job.outcome = .ok r → job.duration ≤ timeout →
      _get_transcript_from_queue job timeout = .ok r ∧
      get_video_transcript job timeout = r) ∧
    (timeout < job.duration →
      _get_transcript_from_queue job timeout =
        .error (timeoutMessage timeout job.id) ∧
      get_video_transcript job timeout = timeoutMessage timeout job.id ∧
      timeoutMessage timeout job.id =
        ("Video processing is taking longer than " ++ toString timeout ++
          "s (likely running Whisper). Job ID: ") ++ job.id ++
          ". Please use check_job_status tool later." ∧
      (∀ t, job.duration ≤ t →
        jobStateAt job t =
          (match job.outcome with
           | .ok _ => CeleryState.success
           | .error _ => CeleryState.failure) ∧
        (∀ r, job.outcome = .ok r →
          check_job_status (jobStateAt job t) (jobResultAt job t) =
            "Finished! Result preview: " ++ pyTake r 100 ++ "..."))) := by
  constructor
  · intro r hr hd
    have hq : _get_transcript_from_queue job timeout = .ok r := by
      unfold _get_transcript_from_queue task_get
      rw [if_neg (by omega), hr]
    refine ⟨hq, ?_⟩
    unfold get_video_transcript
    rw [hq]
  · intro hlt
    have hq : _get_transcript_from_queue job timeout =
        .error (timeoutMessage timeout job.id) := by
      unfold _get_transcript_from_queue task_get
      rw [if_pos (by omega)]
    refine ⟨hq, ?_, ?_, ?_⟩
    · unfold get_video_transcript
      rw [hq]
    · simp [timeoutMessage, String.append_assoc]
    · intro t ht
      have hst : jobStateAt job t =
          (match job.outcome with
           | .ok _ => CeleryState.success
           | .error _ => CeleryState.failure) := by
        unfold jobStateAt
        rw [if_neg (by omega)]
      refine ⟨hst, ?_⟩
      intro r hr
      rw [hst, hr]
      unfold check_job_status jobResultAt
      rw [if_neg (by omega), hr]

/-- Witness for C1 at a slow successful job (duration 60, budget 30) and a
fast one (duration 2). -/
theorem C1_bridge_wait_budget_witness :
    ((2 : Nat) ≤ 30 ∧
      get_video_transcript ⟨"job-1", 2, .ok "hello"⟩ 30 = "hello") ∧
    ((30 : Nat) < 60 ∧
      _get_transcript_from_queue ⟨"job-1", 60, .ok "hello"⟩ 30 =
        .error (timeoutMessage 30 "job-1") ∧
      check_job_status (jobStateAt ⟨"job-1", 60, .ok "hello"⟩ 61)
        (jobResultAt ⟨"job-1", 60, .ok "hello"⟩ 61) =
        "Finished! Result preview: hello...") :=
  ⟨⟨by decide,
    ((C1_bridge_wait_budget ⟨"job-1", 2, .ok "hello"⟩ 30).1 "hello" rfl
      (by decide)).2⟩,
   by decide,
   ((C1_bridge_wait_budget ⟨"job-1", 60, .ok "hello"⟩ 30).2 (by decide)).1,
   (((((C1_bridge_wait_budget ⟨"job-1", 60, .ok "hello"⟩ 30).2
      (by decide)).2.2.2) 61 (by decide)).2 "hello" rfl)⟩

/-- The executor's retry loop under four consecutive failures: attempts at
times 0, 5, 10, 15 and a terminal failure carrying the last error. -/
lemma fetch_all_fail (g : Nat → Except String String) (e : Nat → String)
    (h : ∀ i, i ≤ 3 → g i = .error (e i)) :
    fetch_transcript_task g = (.error (e 3), [0, 5, 10, 15]) := by
  have h0 := h 0 (by omega)
  have h1 := h 1 (by omega)
  have h2 := h 2 (by omega)
  have h3 := h 3 (by omega)
  simp [fetch_transcript_task, retryLoop, h0, h1, h2, h3]

/-- C2: on transient failures the executor retries the job up to 3 times
(4 executions in all) with a fixed delay of 5 time units between attempt
starts; only after those retries are exhausted does the job settle into
the terminal failed state, carrying the last attempt's error; and the Job
Queue Bridge caller's view is a function of the terminal outcome alone, so
intermediate retries are invisible to it. -/
theorem C2_executor_retry_policy (g : Nat → Except String String)
    (e : Nat → String) (h : ∀ i, i ≤ 3 → g i = .error (e i)) :
    fetch_transcript_task g = (.error (e 3), [0, 5, 10, 15]) ∧
    (fetch_transcript_task g).2.length = 1 + 3 ∧
    (fetch_transcript_task g).2.Chain' (fun a b => b = a + 5) ∧
    bridge_view g = (.failure, e 3) ∧
    (∀ g2 : Nat → Except String String,
      (fetch_transcript_task g2).1 = (fetch_transcript_task g).1 →
      bridge_view g2 = bridge_view g) := by
  have hf := fetch_all_fail g e h
  refine ⟨hf, by rw [hf]; rfl,
    by rw [hf]; simp [List.chain'_cons],
    ?_, ?_⟩
  · unfold bridge_view
    rw [hf]
  · intro g2 hg2
    unfold bridge_view
    rw [hg2]

/-- Witness for C2 with a concrete always-failing task body. -/
theorem C2_executor_retry_policy_witness :
    fetch_transcript_task (fun i => .error ("boom" ++ toString i)) =
      (.error "boom3", [0, 5, 10, 15]) ∧
    bridge_view (fun i => .error ("boom" ++ toString i)) =
      (.failure, "boom3") :=
  ⟨(C2_executor_retry_policy _ (fun i => "boom" ++ toString i)
      (fun _ _ => rfl)).1,
   (C2_executor_retry_policy _ (fun i => "boom" ++ toString i)
      (fun _ _ => rfl)).2.2.2.1⟩

/-- C3 counterexample: with retention bound `k = 0` the claim fails.  The
trim slice is Python `[-0:]`, which is the whole list, so after one
non-system addition the conversation retains 1 non-system message instead
of `min 1 0 = 0`. -/
theorem C3_counterexample :
    ¬ (((addAll (newConversation "c" 0) [("user", "hi")]).messages.filter
          nonSystem).length =
        min ((msgsOf [("user", "hi")]).filter nonSystem).length 0) := by
  decide

/-- C3 (amended to retention bounds `k ≥ 1`): after any sequence of
additions containing `n` non-system messages, the conversation retains all
system messages ever added, in order, and exactly `min n k` non-system
messages — the most recent ones, in their original relative order (the
suffix obtained by evicting oldest first). -/
theorem C3_trimming_invariant (cid : String) (k : Nat) (hk : 1 ≤ k)
    (adds : List (String × String)) :
    (addAll (newConversation cid k) adds).messages.filter isSystem =
      (msgsOf adds).filter isSystem ∧
    (addAll (newConversation cid k) adds).messages.filter nonSystem =
      ((msgsOf adds).filter nonSystem).drop
        (((msgsOf adds).filter nonSystem).length - k) ∧
    ((addAll (newConversation cid k) adds).messages.filter nonSystem).length =
      min ((msgsOf adds).filter nonSystem).length k := by
  have h := addAll_filter adds (newConversation cid k) [] hk rfl
    (by show List.filter nonSystem [] = lastK k (List.filter nonSystem [])
        simp [lastK])
  rw [List.nil_append] at h
  have hmax : (newConversation cid k).max_history = k := rfl
  rw [hmax] at h
  refine ⟨h.1, h.2, ?_⟩
  rw [h.2]
  unfold lastK
  rw [List.length_drop]
  omega

/-- Witness for C3 at `k = 2` with one system and three user messages:
the two most recent user messages and the system message survive. -/
theorem C3_trimming_invariant_witness :
    (1 : Nat) ≤ 2 ∧
    (addAll (newConversation "c" 2)
        [("system", "s"), ("user", "a"), ("user", "b"), ("user", "c")]
      ).messages.filter nonSystem =
      ((msgsOf [("system", "s"), ("user", "a"), ("user", "b"), ("user", "c")]
        ).filter nonSystem).drop
        (((msgsOf [("system", "s"), ("user", "a"), ("user", "b"),
          ("user", "c")]).filter nonSystem).length - 2) :=
  ⟨by decide,
   (C3_trimming_invariant "c" 2 (by decide)
     [("system", "s"), ("user", "a"), ("user", "b"), ("user", "c")]).2.1⟩

/-- C4: the tool-call parser is deterministic (it is a pure function of
the input text) and order-preserving: on a text assembled from
delimiter-free separators and well-formed spans, it returns exactly the
decoded invocations in the order their delimiters appear.  Instantiated at
spans calling A, B, A it yields the sequence [A, B, A] (see the
witness). -/
theorem C4_parser_order_preserving
    (ps : List (List Char × List Char)) (t : List Char)
    (dec : List Char → Json)
    (hps : ∀ p ∈ ps, '<' ∉ p.1 ∧ '<' ∉ p.2) (ht : '<' ∉ t)
    (hdec : ∀ p ∈ ps, jloads (spanBody p.2) = some (dec p.2)) :
    parse_tool_calls ⟨assembleL ps t⟩ = ps.map (fun p => dec p.2) := by
  show (findSpansL (assembleL ps t)).filterMap jloads = _
  rw [findSpansL_assembleL hps ht, List.filterMap_map]
  induction ps with
  | nil => rfl
  | cons p ps ih =>
    rw [List.filterMap_cons, Function.comp_apply,
      hdec p (List.mem_cons_self p ps)]
    rw [ih (fun q hq => hps q (List.mem_cons_of_mem p hq))
      (fun q hq => hdec q (List.mem_cons_of_mem p hq))]
    rfl

/-- C5: malformed spans are silently discarded while every well-formed
span still yields an invocation — a decode failure never aborts the scan
of subsequent spans, and nothing of the failure reaches the returned
value. -/
theorem C5_malformed_spans_recovered
    (ps : List (List Char × List Char)) (t : List Char)
    (hps : ∀ p ∈ ps, '<' ∉ p.1 ∧ '<' ∉ p.2) (ht : '<' ∉ t) :
    parse_tool_calls ⟨assembleL ps t⟩ =
      ps.filterMap (fun p => jloads (spanBody p.2)) := by
  show (findSpansL (assembleL ps t)).filterMap jloads = _
  rw [findSpansL_assembleL hps ht, List.filterMap_map]
  rfl

/-- Concrete A, B, A response pieces for the C4 witness. -/
def abaPieces : List (List Char × List Char) :=
  [("I will call tools. ".data, "\"name\": \"A\", \"arguments\": \x7b\x7d".data),
   (" next ".data, "\"name\": \"B\", \"arguments\": \x7b\x7d".data),
   (" and again ".data, "\"name\": \"A\", \"arguments\": \x7b\x7d".data)]

/-- Witness for C4: a text with well-formed calls to tools A, then B, then
A parses to the invocation sequence [A, B, A]. -/
theorem C4_parser_order_preserving_witness :
    (∀ p ∈ abaPieces, '<' ∉ p.1 ∧ '<' ∉ p.2) ∧
    parse_tool_calls ⟨assembleL abaPieces " done".data⟩ =
      [Json.obj [("name", Json.str "A"), ("arguments", Json.obj [])],
       Json.obj [("name", Json.str "B"), ("arguments", Json.obj [])],
       Json.obj [("name", Json.str "A"), ("arguments", Json.obj [])]] :=
  ⟨by decide,
   C4_parser_order_preserving abaPieces " done".data
     (fun x => (jloads (spanBody x)).getD Json.null)
     (by decide) (by decide)
     (by intro p hp; fin_cases hp <;> rfl)⟩

/-- Concrete pieces mixing well-formed and malformed spans for the C5
witness: a good call to A, a span that fails to decode, a good call to
B. -/
def mixedPieces : List (List Char × List Char) :=
  [("first ".data, "\"name\": \"A\", \"arguments\": \x7b\x7d".data),
   (" broken ".data, "oh no, not json".data),
   (" recovered ".data, "\"name\": \"B\", \"arguments\": \x7b\x7d".data)]

/-- Witness for C5: the malformed middle span is dropped silently and the
later well-formed span is still parsed. -/
theorem C5_malformed_spans_recovered_witness :
    (∀ p ∈ mixedPieces, '<' ∉ p.1 ∧ '<' ∉ p.2) ∧
    parse_tool_calls ⟨assembleL mixedPieces " end".data⟩ =
      [Json.obj [("name", Json.str "A"), ("arguments", Json.obj [])],
       Json.obj [("name", Json.str "B"), ("arguments", Json.obj [])]] :=
  ⟨by decide,
   C5_malformed_spans_recovered mixedPieces " end".data (by decide) (by decide)⟩

/-- C6 counterexample: the delimiter-bounded span `{"name": "A",}` fails
strict decoding but is repaired by the lenient decoding the spec
describes (trailing comma), yet `parse_tool_calls` drops it — so the span
is discarded without lenient decoding having failed, refuting "a span is
dropped only after both strict and lenient decoding have failed". -/
theorem C6_counterexample :
    jloads ("\x7b\"name\": \"A\",\x7d".data) = none ∧
    spec_lenient_loads ("\x7b\"name\": \"A\",\x7d".data) =
      some (Json.obj [("name", Json.str "A")]) ∧
    parse_tool_calls "<tool_call>\x7b\"name\": \"A\",\x7d</tool_call>" = [] :=
  ⟨rfl, rfl, rfl⟩

/-- C6 (amended): the delimiter-span parser attempts only strict JSON
decoding; a span is dropped as soon as strict decoding fails, even when
the lenient/repair decoding described by the spec would succeed on every
span.  (A repair decode exists only in the archived TOOL_CALL-marker
extractor, `extract_tool_calls_from_response`, which applies `repair_json`
unconditionally before decoding rather than as a strict-first
fallback.) -/
theorem C6_strict_decoding_only
    (ps : List (List Char × List Char)) (t : List Char)
    (hps : ∀ p ∈ ps, '<' ∉ p.1 ∧ '<' ∉ p.2) (ht : '<' ∉ t)
    (hstrict : ∀ p ∈ ps, jloads (spanBody p.2) = none)
    (hlenient : ∀ p ∈ ps, (spec_lenient_loads (spanBody p.2)).isSome = true) :
    parse_tool_calls ⟨assembleL ps t⟩ = [] := by
  show (findSpansL (assembleL ps t)).filterMap jloads = _
  rw [findSpansL_assembleL hps ht, List.filterMap_map]
  exact List.filterMap_eq_nil_iff.mpr
    (fun p hp => hstrict p hp)

/-- Witness for C6: one repairable span, dropped. -/
theorem C6_strict_decoding_only_witness :
    jloads (spanBody "\"name\": \"A\",".data) = none ∧
    (spec_lenient_loads (spanBody "\"name\": \"A\",".data)).isSome = true ∧
    parse_tool_calls
      ⟨assembleL [("see: ".data, "\"name\": \"A\",".data)] " end".data⟩ = [] :=
  ⟨rfl, rfl,
   C6_strict_decoding_only [("see: ".data, "\"name\": \"A\",".data)]
     " end".data (by decide) (by decide)
     (by intro p hp; fin_cases hp <;> rfl)
     (by intro p hp; fin_cases hp <;> rfl)⟩

/-- The Celery state of a retrying task over time: attempts are modelled
as instantaneous at their trace times; the task reports `RETRY` during
each backoff window and its terminal state after the last attempt. -/
def retryStateAt (g : Nat → Except String String) (t : Nat) : CeleryState :=
  let r := fetch_transcript_task g
  if t < r.2.getLastD 0 then .retry
  else
    match r.1 with
    | .ok _ => .success
    | .error _ => .failure

/-- C7 counterexample: a job in the `RETRY` backoff window (reachable for
any transiently failing task, e.g. at time 7 of the all-failing run) makes
the status query return a fifth textual state, distinct from the four the
claim allows. -/
theorem C7_counterexample :
    retryStateAt (fun i => .error ("boom" ++ toString i)) 7 =
      CeleryState.retry ∧
    check_job_status CeleryState.retry "r" =
      "Current Status: RETRY (Please wait...)" ∧
    check_job_status CeleryState.retry "r" ≠ check_job_status .pending "r" ∧
    check_job_status CeleryState.retry "r" ≠ check_job_status .started "r" ∧
    check_job_status CeleryState.retry "r" ≠ check_job_status .success "r" ∧
    check_job_status CeleryState.retry "r" ≠ check_job_status .failure "r" := by
  refine ⟨rfl, rfl, ?_, ?_, ?_, ?_⟩ <;> decide

/-- C7 (amended): the status query returns the succeeded-preview form
(first 100 characters of the result) for `SUCCESS`, the failed-reason form
for `FAILURE`, and the generic waiting form for each non-terminal state —
`PENDING`, `STARTED`, and also `RETRY` during automatic retry backoff; for
a job whose executor failed all 1+3 attempts, a query after the last
attempt returns `failed` with the last attempt's error reason. -/
theorem C7_status_query_forms (r : String) (g : Nat → Except String String)
    (e : Nat → String) (h : ∀ i, i ≤ 3 → g i = .error (e i)) :
    check_job_status CeleryState.success r =
      "Finished! Result preview: " ++ pyTake r 100 ++ "..." ∧
    check_job_status CeleryState.failure r = "Failed: " ++ r ∧
    check_job_status CeleryState.pending r =
      "Current Status: PENDING (Please wait...)" ∧
    check_job_status CeleryState.started r =
      "Current Status: STARTED (Please wait...)" ∧
    check_job_status CeleryState.retry r =
      "Current Status: RETRY (Please wait...)" ∧
    (∀ t, 15 ≤ t →
      retryStateAt g t = CeleryState.failure ∧
      check_job_status (retryStateAt g t) (bridge_view g).2 =
        "Failed: " ++ e 3) := by
  have hf := fetch_all_fail g e h
  refine ⟨rfl, rfl, rfl, rfl, rfl, ?_⟩
  intro t ht
  have hst : retryStateAt g t = CeleryState.failure := by
    unfold retryStateAt
    rw [hf]
    dsimp only
    rw [if_neg (by simp [List.getLastD]; omega)]
  refine ⟨hst, ?_⟩
  rw [hst]
  unfold bridge_view
  rw [hf]
  rfl

/-- Witness for C7 with the concrete all-failing task body. -/
theorem C7_status_query_forms_witness :
    check_job_status CeleryState.success "The video explains" =
      "Finished! Result preview: The video explains..." ∧
    retryStateAt (fun i => .error ("boom" ++ toString i)) 20 =
      CeleryState.failure ∧
    check_job_status
      (retryStateAt (fun i => .error ("boom" ++ toString i)) 20)
      (bridge_view (fun i => .error ("boom" ++ toString i))).2 =
      "Failed: boom3" :=
  ⟨(C7_status_query_forms "The video explains" _
      (fun i => "boom" ++ toString i) (fun _ _ => rfl)).1,
   ((C7_status_query_forms "The video explains" _
      (fun i => "boom" ++ toString i) (fun _ _ => rfl)).2.2.2.2.2 20
      (by decide)).1,
   ((C7_status_query_forms "The video explains" _
      (fun i => "boom" ++ toString i) (fun _ _ => rfl)).2.2.2.2.2 20
      (by decide)).2⟩

/-- C8: when at least one tool invocation is parsed from the first
generation, the agent loop performs exactly one re-generation pass — the
generator is called exactly twice, and only the invocations of the first
generation are executed — and every residual tool-call delimiter span in
the second generation's output is removed (not executed) before the final
text is returned, which is the `.strip()`ed concatenation of the text
outside of the spans. -/
theorem C8_single_regeneration_and_strip
    (o : AgentOracle) (history : List PMessage) (calls : List Json)
    (ps : List (List Char × List Char)) (tail : List Char)
    (hparse : parse_tool_calls_main (o.gen1 (agentMessages1 o history)) =
      some calls)
    (hne : calls ≠ [])
    (hps : ∀ p ∈ ps, '<' ∉ p.1 ∧ '<' ∉ p.2) (htail : '<' ∉ tail)
    (hgen2 : (o.gen2 (agentMessages2 o history calls)).data =
      sAssembleL ps tail) :
    intelligent_agent_response o history =
      some (pyStrip ⟨sFillers ps tail⟩,
        ⟨[agentMessages1 o history, agentMessages2 o history calls],
         calls.map (fun tc =>
           (jget tc "name", jgetD tc "arguments" (Json.obj [])))⟩) := by
  have hempty : calls.isEmpty = false := by
    cases calls with
    | nil => exact absurd rfl hne
    | cons a l => rfl
  have hstrip : stripToolCallTags (o.gen2 (agentMessages2 o history calls)) =
      ⟨sFillers ps tail⟩ := by
    unfold stripToolCallTags
    rw [hgen2, stripSpansL_sAssembleL hps htail]
  simp only [intelligent_agent_response, hparse, hempty, Bool.false_eq_true,
    if_false, hstrip]

/-- A concrete turn: the first generation asks for one transcript tool
call; the second generation still contains a residual tool-call span. -/
def demoOracle : AgentOracle where
  systemPrompt := "SYS"
  gen1 := fun _ =>
    "<tool_call>\x7b\"name\": \"get_video_transcript\", \"arguments\": \x7b\"video_url\": \"https://youtu.be/dQw4w9WgXcQ\"\x7d\x7d</tool_call>"
  gen2 := fun _ => "Answer: <tool_call>residual</tool_call> done."
  exec := fun _ _ => Json.str "TRANSCRIPT TEXT"

/-- The history of the concrete turn. -/
def demoHistory : List PMessage :=
  [PMessage.mk "user" "Summarize https://youtu.be/dQw4w9WgXcQ"]

/-- The invocation the first generation of `demoOracle` parses to. -/
def demoCalls : List Json :=
  [Json.obj [("name", Json.str "get_video_transcript"),
    ("arguments", Json.obj [("video_url",
      Json.str "https://youtu.be/dQw4w9WgXcQ")])]]

/-- Witness for C8 on the concrete turn: one tool call parsed, two
generator calls, the residual span of the second output stripped. -/
theorem C8_single_regeneration_and_strip_witness :
    parse_tool_calls_main (demoOracle.gen1 (agentMessages1 demoOracle
      demoHistory)) = some demoCalls ∧
    pyStrip ⟨sFillers [("Answer: ".data, "residual".data)] " done.".data⟩ =
      "Answer:  done." ∧
    intelligent_agent_response demoOracle demoHistory =
      some (pyStrip ⟨sFillers [("Answer: ".data, "residual".data)]
          " done.".data⟩,
        ⟨[agentMessages1 demoOracle demoHistory,
          agentMessages2 demoOracle demoHistory demoCalls],
         demoCalls.map (fun tc =>
           (jget tc "name", jgetD tc "arguments" (Json.obj [])))⟩) :=
  ⟨rfl, rfl,
   C8_single_regeneration_and_strip demoOracle demoHistory demoCalls
     [("Answer: ".data, "residual".data)] " done.".data rfl
     (List.cons_ne_nil _ _) (by decide) (by decide) rfl⟩

/-- C9 counterexample: on the concrete turn, the consolidated tool-result
message injected before the re-generation carries role `"user"`, not the
role `"tool"` the claim states. -/
theorem C9_counterexample :
    (match intelligent_agent_response demoOracle demoHistory with
     | some (_, tr) =>
       ((tr.genMessages.getD 1 []).getLastD (PMessage.mk "" "")).role
     | none => "none") = "user" ∧ ("user" : String) ≠ "tool" :=
  ⟨rfl, by decide⟩

/-- C9 (amended: the consolidated message is appended with role `"user"`,
not `"tool"`): when tool invocations are executed, all their outcomes are
serialized together — each as `json.dumps` of an object with exactly the
keys `name` and `results`, wrapped in the `<tool_response>` delimiter pair
— joined in execution order after the fixed header, appended to the
message sequence as one single consolidated user-role message, and the
re-generation call receives exactly that extended message sequence. -/
theorem C9_consolidated_tool_results
    (o : AgentOracle) (history : List PMessage) (calls : List Json)
    (hparse : parse_tool_calls_main (o.gen1 (agentMessages1 o history)) =
      some calls)
    (hne : calls ≠ []) :
    intelligent_agent_response o history =
      some (pyStrip (stripToolCallTags
          (o.gen2 (agentMessages2 o history calls))),
        ⟨[agentMessages1 o history, agentMessages2 o history calls],
         calls.map (fun tc =>
           (jget tc "name", jgetD tc "arguments" (Json.obj [])))⟩) ∧
    agentMessages2 o history calls =
      agentMessages1 o history ++
        [PMessage.mk "user"
          ("TOOL RESULTS (use these to answer the user\x27s question):\n\n" ++
            String.intercalate "\n" (calls.map (fun tc =>
              "<tool_response>\n" ++
              jdumps (Json.obj [("name", optToJson (jget tc "name")),
                ("results", o.exec (jget tc "name")
                  (jgetD tc "arguments" (Json.obj [])))]) ++
              "\n</tool_response>")))] := by
  have hempty : calls.isEmpty = false := by
    cases calls with
    | nil => exact absurd rfl hne
    | cons a l => rfl
  constructor
  · simp only [intelligent_agent_response, hparse, hempty, Bool.false_eq_true,
      if_false]
  · unfold agentMessages2 tool_results_text
    rw [List.map_map]
    rfl

/-- Witness for C9 on the concrete turn. -/
theorem C9_consolidated_tool_results_witness :
    parse_tool_calls_main (demoOracle.gen1 (agentMessages1 demoOracle
      demoHistory)) = some demoCalls ∧
    agentMessages2 demoOracle demoHistory demoCalls =
      agentMessages1 demoOracle demoHistory ++
        [PMessage.mk "user"
          ("TOOL RESULTS (use these to answer the user\x27s question):\n\n" ++
            String.intercalate "\n" (demoCalls.map (fun tc =>
              "<tool_response>\n" ++
              jdumps (Json.obj [("name", optToJson (jget tc "name")),
                ("results", demoOracle.exec (jget tc "name")
                  (jgetD tc "arguments" (Json.obj [])))]) ++
              "\n</tool_response>")))] :=
  ⟨rfl,
   (C9_consolidated_tool_results demoOracle demoHistory demoCalls rfl
     (List.cons_ne_nil _ _)).2⟩

/-- C10 counterexample: on the input `<tool_call>{}</tool_call>` the
decoded span lacks a `"name"` key; the main.py parser's logging subscript
`tool_call['name']` raises `KeyError` (modelled as `none`), so
`parse_tool_calls` of main.py does not return for every input — while the
app/worker.py variant returns the decoded object. -/
theorem C10_counterexample :
    parse_tool_calls_main "<tool_call>\x7b\x7d</tool_call>" = none ∧
    parse_tool_calls "<tool_call>\x7b\x7d</tool_call>" = [Json.obj []] :=
  ⟨rfl, rfl⟩

lemma parseMainAux_eq_filterMap :
    ∀ ms : List (List Char),
      (∀ m ∈ ms, ∀ j, jloads m = some j → (jget j "name").isSome = true) →
      parseMainAux ms = some (ms.filterMap jloads) := by
  intro ms
  induction ms with
  | nil => intro _; rfl
  | cons m ms ih =>
    intro h
    rw [parseMainAux, List.filterMap_cons]
    cases hj : jloads m with
    | none => exact ih (fun x hx => h x (List.mem_cons_of_mem m hx))
    | some j =>
      obtain ⟨v, hv⟩ := Option.isSome_iff_exists.mp
        (h m (List.mem_cons_self m ms) j hj)
      show (match jget j "name" with
            | none => none
            | some _ =>
              match parseMainAux ms with
              | some l => some (j :: l)
              | none => none) = some (j :: List.filterMap jloads ms)
      rw [hv, ih (fun x hx => h x (List.mem_cons_of_mem m hx))]

/-- C10 (amended): the app/worker.py parser is total by construction —
every JSON decode failure is caught and the span skipped — and the main.py
parser returns (without raising) exactly the same invocation list whenever
every decoded span carries a `"name"` key; its only exception path is the
logging subscript `tool_call['name']` on a decoded object that lacks
`"name"`.  Decode failures alone never raise in either variant. -/
theorem C10_parser_totality (s : String)
    (h : ∀ m ∈ findSpansL s.data, ∀ j, jloads m = some j →
      (jget j "name").isSome = true) :
    parse_tool_calls_main s = some (parse_tool_calls s) :=
  parseMainAux_eq_filterMap (findSpansL s.data) h

/-- Witness for C10: a text with one named span and one span that fails
to decode — the decode failure does not raise, and main.py agrees with
the worker parser. -/
theorem C10_parser_totality_witness :
    parse_tool_calls_main
      "x <tool_call>\x7b\"name\": \"A\"\x7d</tool_call> y <tool_call>\x7bbroken\x7d</tool_call>" =
      some (parse_tool_calls
        "x <tool_call>\x7b\"name\": \"A\"\x7d</tool_call> y <tool_call>\x7bbroken\x7d</tool_call>") ∧
    parse_tool_calls
      "x <tool_call>\x7b\"name\": \"A\"\x7d</tool_call> y <tool_call>\x7bbroken\x7d</tool_call>" =
      [Json.obj [("name", Json.str "A")]] :=
  ⟨C10_parser_totality _ (by
      intro m hm j hj
      have e : findSpansL ("x <tool_call>\x7b\"name\": \"A\"\x7d</tool_call> y <tool_call>\x7bbroken\x7d</tool_call>" : String).data =
          ["\x7b\"name\": \"A\"\x7d".data, "\x7bbroken\x7d".data] := rfl
      rw [e] at hm
      simp only [List.mem_cons, List.not_mem_nil, or_false] at hm
      rcases hm with rfl | rfl
      · rw [show jloads ("\x7b\"name\": \"A\"\x7d".data) =
            some (Json.obj [("name", Json.str "A")]) from rfl] at hj
        cases hj
        rfl
      · rw [show jloads ("\x7bbroken\x7d".data) = none from rfl] at hj
        cases hj),
   rfl⟩
